import Mathlib

/-!
Verification development for the Fetch take-home data-cleaning script
(`Fetch_Data_Analyst_Take_Home.py`).

The script is a linear pandas pipeline: load three tables (users,
transactions, products), clean each, left-join them, and run fixed SQL
aggregations.  We shallowly embed the cleaning, join and query logic:

* a cell value is `Val` (pandas object cell: NaN, a string, or a number;
  numbers are modelled as rationals);
* a data frame is a `List (ℕ × row)` — rows tagged with their pandas
  index label, which the script never resets, so `sort_index` recovers
  original order;
* fallible steps (pandas operations that raise, such as `astype(float)`
  on an unparseable string) return `Option`.

Dates are modelled as year/month/day triples with the calendar arithmetic
of `dateutil.relativedelta` (month addition clamps the day to the end of
the target month).
-/

namespace Fetch

/-- A pandas cell value: missing (NaN/NaT), a string, or a number.
Numbers are rationals (the script only ever produces finite floats whose
decimal literals are exact here). -/
inductive Val where
  | null : Val
  | str : String → Val
  | num : ℚ → Val
deriving DecidableEq, Repr

/-- A calendar date (year, month, day), as produced by `pd.to_datetime`.
Fields are integers so that `relativedelta`-style arithmetic needs no
coercions. -/
structure Date where
  y : ℤ
  m : ℤ
  d : ℤ
deriving DecidableEq, Repr

/-- Strict lexicographic order on dates, matching `datetime` comparison. -/
def dateLt (a b : Date) : Bool :=
  a.y < b.y ∨ (a.y = b.y ∧ (a.m < b.m ∨ (a.m = b.m ∧ a.d < b.d)))

/-- Non-strict date order. -/
def dateLe (a b : Date) : Bool :=
  a = b ∨ dateLt a b

/-- Python string `<` : lexicographic comparison of code points, used by
the raw `BIRTH_DATE >= '1925-01-01'` filter at line 102 of the script. -/
def strLtL : List Char → List Char → Bool
  | [], [] => false
  | [], _ :: _ => true
  | _ :: _, [] => false
  | a :: as, b :: bs =>
    if a.toNat < b.toNat then true
    else if b.toNat < a.toNat then false
    else strLtL as bs

/-- Python string `>=`. -/
def strGe (a b : String) : Bool := !(strLtL a.data b.data)

/-- The elementwise `Series >= '1925-01-01'` comparison, following
pandas's object-array `scalar_compare`: a null cell compares `False`
(the row is silently dropped by the filter), a string cell compares
lexicographically, and a non-null non-string cell raises `TypeError`
(guarded in `cleanUsers`, so the numeric branch here is unreachable). -/
def strGeVal (v : Val) (b : String) : Bool :=
  match v with
  | .str s => strGe s b
  | _ => false

/-- Parse a nonempty all-digit character list as a natural number. -/
def digitsToNat? (cs : List Char) : Option ℕ :=
  match cs with
  | [] => none
  | _ =>
    if cs.all (fun c => c.isDigit) then
      some (cs.foldl (fun a c => 10 * a + (c.toNat - 48)) 0)
    else none

/-- Split a character list on a separator character (like `str.split`). -/
def splitOnChar (c : Char) : List Char → List (List Char)
  | [] => [[]]
  | x :: xs =>
    let r := splitOnChar c xs
    if x = c then [] :: r
    else
      match r with
      | h :: t => (x :: h) :: t
      | [] => [[x]]

/-- Decimal-literal parser modelling CPython's `float()` / numpy numeric
parsing on the fragment the data uses: an optional minus sign, digits, and
at most one decimal point with digits on both sides.  Anything else is
`none` (pandas `errors='coerce'` then yields NaN; `astype(float)` raises). -/
def parseDec (s : String) : Option ℚ :=
  let (neg, body) :=
    match s.data with
    | '-' :: rest => (true, rest)
    | cs => (false, cs)
  match splitOnChar '.' body with
  | [a] =>
    (digitsToNat? a).map (fun n =>
      mkRat (if neg then -(n : ℤ) else (n : ℤ)) 1)
  | [a, b] =>
    match digitsToNat? a, digitsToNat? b with
    | some n, some f =>
      some (mkRat (if neg then -((n * 10 ^ b.length + f : ℕ) : ℤ)
                   else ((n * 10 ^ b.length + f : ℕ) : ℤ)) (10 ^ b.length))
    | _, _ => none
  | _ => none

/-- Leap-year test (Gregorian). -/
def isLeap (y : ℤ) : Bool :=
  (y.emod 4 = 0 ∧ y.emod 100 ≠ 0) ∨ y.emod 400 = 0

/-- Days in a month. -/
def daysInMonth (y m : ℤ) : ℤ :=
  if m = 2 then (if isLeap y then 29 else 28)
  else if m = 4 ∨ m = 6 ∨ m = 9 ∨ m = 11 then 30
  else 31

/-- Validate and build a date from digit strings, as `pd.to_datetime`
does (invalid calendar dates coerce to NaT). -/
def parseYMD? (ys ms ds : List Char) : Option Date :=
  match digitsToNat? ys, digitsToNat? ms, digitsToNat? ds with
  | some y, some m, some d =>
    if 1 ≤ m ∧ m ≤ 12 ∧ 1 ≤ d ∧ (d : ℤ) ≤ daysInMonth y m then
      some ⟨y, m, d⟩
    else none
  | _, _, _ => none

/-- ISO `YYYY-MM-DD` date parsing. -/
def parseISO (s : String) : Option Date :=
  match splitOnChar '-' s.data with
  | [ys, ms, ds] => if ys.length = 4 then parseYMD? ys ms ds else none
  | _ => none

/-- US `M/D/YYYY` date parsing (pandas' default `dayfirst=False`
inference). -/
def parseMDY (s : String) : Option Date :=
  match splitOnChar '/' s.data with
  | [ms, ds, ys] => if ys.length = 4 then parseYMD? ys ms ds else none
  | _ => none

/-- `pd.to_datetime(·, errors='coerce')` on one string cell, restricted to
the two date formats the embedding understands; everything else coerces
to NaT (`none`). -/
def toDatetimeStr (s : String) : Option Date :=
  (parseISO s).orElse (fun _ => parseMDY s)

/-- `pd.to_datetime(·, errors='coerce')` on a cell: non-strings coerce to
NaT. -/
def toDatetimeVal (v : Val) : Option Date :=
  match v with
  | .str s => toDatetimeStr s
  | _ => none

/-- Add `k` months to a date, clamping the day to the end of the target
month — the semantics of `date + relativedelta(months=k)`. -/
def addMonths (dt : Date) (k : ℤ) : Date :=
  let idx := 12 * dt.y + (dt.m - 1) + k
  let y := idx.fdiv 12
  let m := idx - 12 * y + 1
  ⟨y, m, min dt.d (daysInMonth y m)⟩

/-- Total signed month difference computed by
`relativedelta(dt1, dt2)`: the raw year/month difference, corrected by
one when the clamped month-shifted date overshoots `dt1`.  Equals
`rd.years * 12 + rd.months`. -/
def rdMonths (dt1 dt2 : Date) : ℤ :=
  let m0 := 12 * (dt1.y - dt2.y) + (dt1.m - dt2.m)
  if dateLt dt1 dt2 then
    (if dateLt (addMonths dt2 m0) dt1 then m0 + 1 else m0)
  else
    (if dateLt dt1 (addMonths dt2 m0) then m0 - 1 else m0)

/-- Truncating division by 12 toward zero, as `relativedelta._set_months`
computes `years` from total months (`divmod(months * sign, 12)` then
re-signed). -/
def truncDiv12 (m : ℤ) : ℤ :=
  if m < 0 then -((m.natAbs / 12 : ℕ) : ℤ) else ((m.natAbs / 12 : ℕ) : ℤ)

/-- `calculate_age_precise`: `relativedelta(today, birthdate).years`. -/
def ageYears (today birth : Date) : ℤ :=
  truncDiv12 (rdMonths today birth)

/-! ## Data frames

A frame is a list of rows tagged with their pandas index label.  The
script never resets an index, so a frame loaded by `read_csv` has labels
`0, 1, 2, …` and every intermediate frame has strictly increasing labels;
`WF` records that invariant. -/

variable {α : Type} {β : Type}

/-- Index order on tagged rows. -/
def idxLt (a b : ℕ × α) : Prop :=
  a.1 < b.1

instance : IsAntisymm (ℕ × α) idxLt :=
  ⟨fun _ _ h1 h2 => absurd (lt_trans h1 h2) (lt_irrefl _)⟩

instance (a b : ℕ × α) : Decidable (idxLt a b) :=
  inferInstanceAs (Decidable (a.1 < b.1))

/-- Well-formed frame: strictly increasing index labels. -/
def WF (df : List (ℕ × α)) : Prop :=
  df.Pairwise idxLt

instance (df : List (ℕ × α)) : Decidable (WF df) :=
  inferInstanceAs (Decidable (df.Pairwise idxLt))

/-- Index labels are pairwise distinct. -/
def NodupIdx (l : List (ℕ × α)) : Prop :=
  (l.map Prod.fst).Nodup

/-- Worker for `drop_duplicates`: `seen` accumulates the row values of
earlier rows; a row equal (in all columns) to an earlier one is dropped. -/
def dropDupsAux [DecidableEq α] (seen : List α) : List (ℕ × α) → List (ℕ × α)
  | [] => []
  | x :: xs =>
    if x.2 ∈ seen then dropDupsAux seen xs
    else x :: dropDupsAux (x.2 :: seen) xs

/-- pandas `DataFrame.drop_duplicates()` (default `keep='first'`). -/
def dropDups [DecidableEq α] (df : List (ℕ × α)) : List (ℕ × α) :=
  dropDupsAux [] df

/-- Insert a row into an index-sorted frame (helper for `sort_index`). -/
def insIdx (x : ℕ × α) : List (ℕ × α) → List (ℕ × α)
  | [] => [x]
  | y :: l => if y.1 < x.1 then y :: insIdx x l else x :: y :: l

/-- pandas `DataFrame.sort_index()` (insertion sort on the index label;
all labels in play are distinct, so stability is irrelevant). -/
def sortIndex : List (ℕ × α) → List (ℕ × α)
  | [] => []
  | x :: xs => insIdx x (sortIndex xs)

/-- Worker for `drop_duplicates(subset=key, keep='first')`: keep the
first row carrying each key value. -/
def dropDupKeyAux (key : α → Val) (seen : List Val) :
    List (ℕ × α) → List (ℕ × α)
  | [] => []
  | x :: xs =>
    if key x.2 ∈ seen then dropDupKeyAux key seen xs
    else x :: dropDupKeyAux key (key x.2 :: seen) xs

/-! ## Row types

Column sets follow the three CSVs as the script uses them. -/

/-- A raw `USER_TAKEHOME.csv` row. -/
structure UserRow where
  ID : Val
  CREATED_DATE : Val
  BIRTH_DATE : Val
  STATE : Val
  LANGUAGE : Val
  GENDER : Val
deriving DecidableEq, Repr

/-- A cleaned user row: dates parsed, `AGE` and `ACCOUNT_AGE_MONTHS`
added. -/
structure CUserRow where
  ID : Val
  CREATED_DATE : Option Date
  BIRTH_DATE : Option Date
  STATE : Val
  LANGUAGE : Val
  GENDER : Val
  AGE : Option ℤ
  ACCOUNT_AGE_MONTHS : Option ℤ
deriving DecidableEq, Repr

/-- A `TRANSACTION_TAKEHOME.csv` row. -/
structure TransRow where
  RECEIPT_ID : Val
  PURCHASE_DATE : Val
  SCAN_DATE : Val
  STORE_NAME : Val
  USER_ID : Val
  BARCODE : Val
  FINAL_QUANTITY : Val
  FINAL_SALE : Val
deriving DecidableEq, Repr

/-- A `PRODUCTS_TAKEHOME.csv` row. -/
structure ProductRow where
  CATEGORY_1 : Val
  CATEGORY_2 : Val
  CATEGORY_3 : Val
  CATEGORY_4 : Val
  MANUFACTURER : Val
  BRAND : Val
  BARCODE : Val
deriving DecidableEq, Repr

/-! ## User cleaning (script lines 98–143) -/

/-- The synonym strings mapped to missing at line 106. -/
def genderMissingTexts : List Val :=
  [.str "prefer_not_to_say", .str "Prefer not to say", .str "unknown",
   .str "not_listed", .str "not_specified", .str "My gender isn't listed"]

/-- `user['GENDER'].replace(texts_to_replace, np.nan)` (line 106). -/
def replaceGenderMissing (v : Val) : Val :=
  if v ∈ genderMissingTexts then .null else v

/-- The two non-binary spellings grouped at line 110. -/
def genderNBTexts : List Val :=
  [.str "non_binary", .str "Non-Binary"]

/-- `user['GENDER'].replace(['non_binary', 'Non-Binary'], "non_binary")`
(line 110). -/
def replaceGenderNB (v : Val) : Val :=
  if v ∈ genderNBTexts then .str "non_binary" else v

/-- The composite gender normalization: line 106 then line 110. -/
def normalizeGender (v : Val) : Val :=
  replaceGenderNB (replaceGenderMissing v)

/-- `AGE` for a parsed birth date.  `calculate_age_precise` applied to
`NaT` raises (`relativedelta` hits `assert 1 <= abs(self.months) <= 12`
on a nan month delta); `none` is that error, and `cleanUsers` lifts it
to an aborted run whenever a `NaT` birth date reaches the line-124
`apply`. -/
def ageOpt (now : Date) (b : Option Date) : Option ℤ :=
  b.map (ageYears now)

/-- The `user['AGE'] >= 13` test (line 127); missing fails. -/
def ageOk (a : Option ℤ) : Bool :=
  match a with
  | some n => 13 ≤ n
  | none => false

/-- `ACCOUNT_AGE_MONTHS`: `rd.years * 12 + rd.months` collapses to the
total signed month difference.  As with `ageOpt`, `none` is the
`relativedelta` error on `NaT`, lifted to an aborted run by the guard
in `cleanUsers` whenever a `NaT` creation date reaches the line-143
`apply`. -/
def monthsOpt (now : Date) (c : Option Date) : Option ℤ :=
  c.map (rdMonths now)

/-- Per-row user transformation covering lines 106–143 (gender
normalization, date parsing, `AGE`, `ACCOUNT_AGE_MONTHS`).  The script
interleaves these with the two filters; the per-row maps commute with
the filters, which are applied at the faithful points in `cleanUsers`. -/
def processUser (now : Date) (r : UserRow) : CUserRow :=
  let b := toDatetimeVal r.BIRTH_DATE
  let c := toDatetimeVal r.CREATED_DATE
  { ID := r.ID, CREATED_DATE := c, BIRTH_DATE := b,
    STATE := r.STATE, LANGUAGE := r.LANGUAGE,
    GENDER := normalizeGender r.GENDER,
    AGE := ageOpt now b, ACCOUNT_AGE_MONTHS := monthsOpt now c }

/-- Guard for the raw `BIRTH_DATE >= '1925-01-01'` comparison: pandas's
object-array comparison returns `False` on null cells but raises
`TypeError` on non-null non-string (numeric) cells. -/
def birthCellOk (v : Val) : Bool :=
  match v with
  | .num _ => false
  | _ => true

/-- The user cleaning pipeline, lines 98–143: drop exact duplicates,
filter raw `BIRTH_DATE` strings lexicographically against
`'1925-01-01'` (null cells compare `False` and drop; a numeric cell is
a `TypeError`, the first `none`), normalize gender, parse the dates,
compute `AGE` (the line-124 `apply` raises on any `NaT` birth date
among the filtered rows, the second `none`), drop `AGE < 13`, compute
`ACCOUNT_AGE_MONTHS` (the line-143 `apply` raises on any `NaT`
creation date among the surviving rows, the third `none`). -/
def cleanUsers (now : Date) (df : List (ℕ × UserRow)) :
    Option (List (ℕ × CUserRow)) :=
  if (dropDups df).all (fun x => birthCellOk x.2.BIRTH_DATE) then
    if ((dropDups df).filter
        (fun x => strGeVal x.2.BIRTH_DATE "1925-01-01")).all
        (fun x => (toDatetimeVal x.2.BIRTH_DATE).isSome) then
      if (((((dropDups df).filter
          (fun x => strGeVal x.2.BIRTH_DATE "1925-01-01")).map
          (fun x => (x.1, processUser now x.2))).filter
            (fun x => ageOk x.2.AGE))).all
          (fun x => x.2.CREATED_DATE.isSome) then
        some (((((dropDups df).filter
          (fun x => strGeVal x.2.BIRTH_DATE "1925-01-01")).map
          (fun x => (x.1, processUser now x.2))).filter
            (fun x => ageOk x.2.AGE)))
      else none
    else none
  else none

/-! ## Transaction cleaning (script lines 148–183) -/

/-- `replace({'zero': '0'})` on `FINAL_QUANTITY` (line 152). -/
def replaceZero (v : Val) : Val :=
  if v = .str "zero" then .str "0" else v

/-- `astype(float)` on a cell: numbers pass through, NaN stays NaN, a
string must parse (otherwise the script raises, modelled by `none`). -/
def floatOfVal (v : Val) : Option Val :=
  match v with
  | .num q => some (.num q)
  | .null => some .null
  | .str s => (parseDec s).map Val.num

/-- `replace({276: 2.76})` on the float `FINAL_QUANTITY` (line 156);
`mkRat 276 100` is the rational 2.76. -/
def fixQuantity276 (v : Val) : Val :=
  if v = .num 276 then .num (mkRat 276 100) else v

/-- The full `FINAL_QUANTITY` treatment, lines 152–156. -/
def quantityClean (v : Val) : Option Val :=
  (floatOfVal (replaceZero v)).map fixQuantity276

/-- `pd.to_numeric(·, errors='coerce')` on a cell (line 159). -/
def toNumericVal (v : Val) : Val :=
  match v with
  | .num q => .num q
  | .null => .null
  | .str s =>
    match parseDec s with
    | some q => .num q
    | none => .null

/-- Decimal rendering of a number for `astype(str)`; the exact rendering
of numeric barcodes is irrelevant to every claim, only that `astype(str)`
yields a string. -/
def ratStr (q : ℚ) : String :=
  toString q

/-- `astype(str)` on a cell.  Crucially, NaN becomes the literal string
`"nan"`, exactly as in pandas. -/
def astypeStr (v : Val) : Val :=
  match v with
  | .null => .str "nan"
  | .str s => .str s
  | .num q => .str (ratStr q)

/-- The per-row transaction coercions, lines 151–162. -/
def coerceTrans (r : TransRow) : Option TransRow :=
  (quantityClean r.FINAL_QUANTITY).map (fun q =>
    { r with FINAL_QUANTITY := q,
             FINAL_SALE := toNumericVal r.FINAL_SALE,
             BARCODE := astypeStr r.BARCODE })

/-- All columns except `FINAL_SALE` (the `subset_no_sales` frame of
`remove_duplicate_missing_sales`). -/
def subsetNoSale (r : TransRow) : Val × Val × Val × Val × Val × Val × Val :=
  (r.RECEIPT_ID, r.PURCHASE_DATE, r.SCAN_DATE, r.STORE_NAME,
   r.USER_ID, r.BARCODE, r.FINAL_QUANTITY)

/-- `subset_no_sales.duplicated(keep=False)`: the row shares all
non-sale columns with some other row of the frame. -/
def dupNoSale (df : List (ℕ × TransRow)) (x : ℕ × TransRow) : Bool :=
  df.any (fun y => y.1 != x.1 && subsetNoSale y.2 == subsetNoSale x.2)

/-- `remove_duplicate_missing_sales` (lines 165–181): keep non-duplicate
rows and duplicate rows with a present `FINAL_SALE`, then `sort_index`. -/
def removeDuplicateMissingSales (df : List (ℕ × TransRow)) :
    List (ℕ × TransRow) :=
  sortIndex ((df.filter (fun x => !dupNoSale df x)) ++
             (df.filter (fun x => dupNoSale df x && x.2.FINAL_SALE != Val.null)))

/-- Apply the per-row coercions to every row, failing if any row fails
(the script would raise on the first bad `astype(float)` cell). -/
def mapCoerce : List (ℕ × TransRow) → Option (List (ℕ × TransRow))
  | [] => some []
  | x :: xs =>
    match coerceTrans x.2, mapCoerce xs with
    | some r, some rest => some ((x.1, r) :: rest)
    | _, _ => none

/-- The transaction frame after `drop_duplicates` and the per-row
coercions, i.e. the input handed to `remove_duplicate_missing_sales`. -/
def ctIntermediate (df : List (ℕ × TransRow)) :
    Option (List (ℕ × TransRow)) :=
  mapCoerce (dropDups df)

/-- The transaction cleaning pipeline, lines 148–183. -/
def cleanTransactions (df : List (ℕ × TransRow)) :
    Option (List (ℕ × TransRow)) :=
  (ctIntermediate df).map removeDuplicateMissingSales

/-! ## Product cleaning (script lines 188–256) -/

/-- `duplicate_rows.notna().sum(axis=1)`: the number of non-missing
cells of a product row. -/
def notnaCount (r : ProductRow) : ℕ :=
  ([r.CATEGORY_1, r.CATEGORY_2, r.CATEGORY_3, r.CATEGORY_4,
    r.MANUFACTURER, r.BRAND, r.BARCODE].countP (fun v => v != Val.null))

/-- `df.duplicated(subset='BARCODE_products', keep=False)`. -/
def dupBarcode (df : List (ℕ × ProductRow)) (x : ℕ × ProductRow) : Bool :=
  df.any (fun y => y.1 != x.1 && y.2.BARCODE == x.2.BARCODE)

/-- The order realized by the stable ascending count sort on a
REVERSED (index-descending) frame: count ascending, ties index
descending.  Reversing a list sorted this way yields count descending
with ties in original (index-ascending) order — exactly the order
pandas's `nargsort` produces for `ascending=False`. -/
def lexLtP (a b : ℕ × ProductRow) : Prop :=
  notnaCount a.2 < notnaCount b.2 ∨
    (notnaCount a.2 = notnaCount b.2 ∧ b.1 < a.1)

/-- Stable ascending insertion sort on `non_missing_count`, the
ascending argsort inside `sort_values`.  numpy's introsort degrades to
a stable insertion sort on the small runs relevant here. -/
def insertByCount (x : ℕ × ProductRow) :
    List (ℕ × ProductRow) → List (ℕ × ProductRow)
  | [] => [x]
  | y :: l =>
    if notnaCount y.2 < notnaCount x.2 then y :: insertByCount x l
    else x :: y :: l

/-- Ascending sort by `non_missing_count`. -/
def sortByCountAsc : List (ℕ × ProductRow) → List (ℕ × ProductRow)
  | [] => []
  | x :: xs => insertByCount x (sortByCountAsc xs)

/-- `duplicate_rows`: the block of rows whose barcode occurs more than
once (line 232–233). -/
def dupRowsOf (df : List (ℕ × ProductRow)) : List (ℕ × ProductRow) :=
  df.filter (dupBarcode df)

/-- `duplicate_rows.sort_values('non_missing_count', ascending=False)`
(line 246): pandas's `nargsort` implements `ascending=False` by
reversing the frame BEFORE the stable ascending argsort and reversing
the resulting indexer AFTER it, so the output is count-descending with
completeness ties left in ORIGINAL row order. -/
def sortedDupOf (df : List (ℕ × ProductRow)) : List (ℕ × ProductRow) :=
  (sortByCountAsc (dupRowsOf df).reverse).reverse

/-- `.drop_duplicates(subset=duplicate_column, keep='first')` over the
descending-sorted duplicate block (line 246): the per-barcode
survivors. -/
def mcOf (df : List (ℕ × ProductRow)) : List (ℕ × ProductRow) :=
  dropDupKeyAux (fun r => r.BARCODE) [] (sortedDupOf df)

/-- `keep_most_complete_duplicates` (lines 230–254): split on the
barcode-duplicated flag, sort the duplicates by non-missing count
descending, keep the first row per barcode, and reassemble with
`sort_index`. -/
def keepMostCompleteDuplicates (df : List (ℕ × ProductRow)) :
    List (ℕ × ProductRow) :=
  if (dupRowsOf df).isEmpty then df
  else sortIndex ((df.filter (fun x => !dupBarcode df x)) ++ mcOf df)

/-- The product cleaning pipeline, lines 188–256: drop exact duplicates,
drop `CATEGORY_1 == 'Needs Review'`, `astype(str)` the barcode,
`dropna(subset=['BARCODE_products'])`, then barcode deduplication.
Note the `dropna` runs after `astype(str)` has already turned NaN into
the string `"nan"`. -/
def cleanProducts (df : List (ℕ × ProductRow)) : List (ℕ × ProductRow) :=
  let d := dropDups df
  let f := d.filter (fun x => x.2.CATEGORY_1 != Val.str "Needs Review")
  let s := f.map (fun x => (x.1, { x.2 with BARCODE := astypeStr x.2.BARCODE }))
  let dn := s.filter (fun x => x.2.BARCODE != Val.null)
  keepMostCompleteDuplicates dn

/-- The script's own missing-barcode test
(`isin([np.nan, 'N/A', '', 'nan'])`, lines 222 and 471). -/
def isMissingBarcode (v : Val) : Bool :=
  v == Val.null || v == Val.str "N/A" || v == Val.str "" || v == Val.str "nan"

/-! ## Joiner (script lines 262–265) -/

/-- `pd.merge(left, right, how='left')` on one key column per side.
Each left row is repeated once per matching right row, or kept once with
a missing right side when nothing matches; pandas treats NaN as an
ordinary key value in merges, so a missing left key matches missing
right keys.  The subsequent `drop` of the redundant right key column is
implicit: the embedding keeps whole rows. -/
def leftJoin (lkey : α → Val) (rkey : β → Val) :
    List α → List β → List (α × Option β)
  | [], _ => []
  | t :: ts, rs =>
    (match rs.filter (fun r => rkey r == lkey t) with
     | [] => [(t, none)]
     | m :: ms => (m :: ms).map (fun r => (t, some r))) ++
    leftJoin lkey rkey ts rs

/-- A row of `merged_data`: transaction columns, then the (possibly
unmatched) user columns, then the (possibly unmatched) product columns. -/
abbrev MRow : Type :=
  (TransRow × Option CUserRow) × Option ProductRow

/-- `merged_data` (lines 262–265): transactions left-joined to users on
`USER_ID = ID`, the result left-joined to products on
`BARCODE = BARCODE_products`. -/
def mergedData (ts : List TransRow) (us : List CUserRow)
    (ps : List ProductRow) : List MRow :=
  leftJoin (fun x => x.1.BARCODE) (fun p => p.BARCODE)
    (leftJoin (fun t => t.USER_ID) (fun u => u.ID) ts us) ps

/-! ## Query 3: leading Dips & Salsa brand (script lines 412–440) -/

/-- The `BRAND` column of the merged table (NULL on an unmatched product
side). -/
def mBrand (m : MRow) : Val :=
  match m.2 with
  | some p => p.BRAND
  | none => .null

/-- The `CATEGORY_2` column of the merged table. -/
def mCat2 (m : MRow) : Val :=
  match m.2 with
  | some p => p.CATEGORY_2
  | none => .null

/-- The `CATEGORY_3` column of the merged table. -/
def mCat3 (m : MRow) : Val :=
  match m.2 with
  | some p => p.CATEGORY_3
  | none => .null

/-- The `FINAL_SALE` column of the merged table. -/
def mSale (m : MRow) : Val :=
  m.1.1.FINAL_SALE

/-- The exact category string the query matches. -/
def dipsSalsa : Val :=
  .str "Dips & Salsa"

/-- The `WHERE` clause of query 3: category-2 or category-3 equals
`'Dips & Salsa'`, brand non-NULL, sale non-NULL (SQL `=` against NULL is
not satisfied, matching `Val` disequality with `.null`). -/
def q3Filter (m : MRow) : Bool :=
  (mCat2 m == dipsSalsa || mCat3 m == dipsSalsa) &&
    mBrand m != Val.null && mSale m != Val.null

/-- Numeric reading of a sale cell for `SUM(FINAL_SALE)`; the filter
guarantees non-NULL, and pipeline sale cells are numeric or NULL. -/
def qVal (v : Val) : ℚ :=
  match v with
  | .num q => q
  | _ => 0

/-- `SUM(FINAL_SALE)` for one brand group. -/
def sumSalesFor (rows : List MRow) (b : Val) : ℚ :=
  (((rows.filter q3Filter).filter (fun m => mBrand m == b)).map
    (fun m => qVal (mSale m))).sum

/-- First-occurrence deduplication of a value list (`GROUP BY` key
collection). -/
def dedupValsAux (seen : List Val) : List Val → List Val
  | [] => []
  | v :: vs =>
    if v ∈ seen then dedupValsAux seen vs
    else v :: dedupValsAux (v :: seen) vs

/-- The distinct brands among the filtered rows. -/
def q3Brands (rows : List MRow) : List Val :=
  dedupValsAux [] ((rows.filter q3Filter).map mBrand)

/-- The `GROUP BY BRAND` result: each distinct brand with its sale sum. -/
def q3Groups (rows : List MRow) : List (Val × ℚ) :=
  (q3Brands rows).map (fun b => (b, sumSalesFor rows b))

/-- `get_leading_dips_salsa_brand`: `ORDER BY total_sales DESC LIMIT 1`.
SQLite leaves ties unspecified; the embedding keeps the first-seen
maximum. -/
def getLeadingDipsSalsaBrand (rows : List MRow) : List (Val × ℚ) :=
  match q3Groups rows with
  | [] => []
  | g :: gs => [gs.foldl (fun best x => if best.2 < x.2 then x else best) g]

/-! ## Claim statements under test

These predicates transcribe the claims' own words (they are the
spec-side statements compared against the embedded code; the cleaning
definitions above are the code side). -/

/-- Claim C2 as stated, first conjunct: after `clean_transactions` no
remaining row is an exact duplicate of another. -/
def claimC2NoDup (df : List (ℕ × TransRow)) : Prop :=
  ∀ out, cleanTransactions df = some out →
    ∀ x ∈ out, ∀ y ∈ out, x.1 ≠ y.1 → x.2 ≠ y.2

/-- Claim C2 as stated, second conjunct: in every group of rows of the
reconciler's input that agree on all columns but `FINAL_SALE`, with both
present and missing sale amounts, the present-sale rows are kept and a
dropped row always leaves a surviving present-sale counterpart. -/
def claimC2Reconciled (df : List (ℕ × TransRow)) : Prop :=
  ∀ out, cleanTransactions df = some out →
    ∀ mid, ctIntermediate df = some mid →
      ∀ x ∈ mid,
        (x.2.FINAL_SALE ≠ Val.null → x ∈ out) ∧
        (x ∉ out → x.2.FINAL_SALE = Val.null ∧
          ∀ y ∈ mid, y.1 ≠ x.1 → subsetNoSale y.2 = subsetNoSale x.2 →
            y.2.FINAL_SALE ≠ Val.null → y ∈ out)

/-- Claim C2 as stated (both conjuncts). -/
def claimC2 (df : List (ℕ × TransRow)) : Prop :=
  claimC2NoDup df ∧ claimC2Reconciled df

/-- Claim C3 as stated, user side: cleaning the users frame completes
(the row with the unparseable field is coerced and retained rather
than crashing the run), and a deduplicated row is absent from the
cleaned output only because an explicit rule (the raw 1925 filter or
the age filter) removed it. -/
def claimC3Users (now : Date) (df : List (ℕ × UserRow)) : Prop :=
  ∃ out, cleanUsers now df = some out ∧
    ∀ x ∈ dropDups df, (∀ c : CUserRow, (x.1, c) ∉ out) →
      strGeVal x.2.BIRTH_DATE "1925-01-01" = false ∨
        ageOk (processUser now x.2).AGE = false

/-- Claim C5 as stated: every barcode group of the deduplicator's input
retains exactly one row — a maximal-count row, ties broken by the
earliest original position. -/
def claimC5 (df : List (ℕ × ProductRow)) : Prop :=
  ∀ b : Val,
    (∃ z ∈ df, z.2.BARCODE = b) →
    ∃ x, (keepMostCompleteDuplicates df).filter
        (fun z => z.2.BARCODE == b) = [x] ∧
      x ∈ df ∧ x.2.BARCODE = b ∧
      ∀ y ∈ df, y.2.BARCODE = b →
        (notnaCount y.2 < notnaCount x.2 ∨
         (notnaCount y.2 = notnaCount x.2 ∧ x.1 ≤ y.1))

/-- Claim C6 as stated: every cleaned user row has (parsed) birth date
on or after 1925-01-01 and age at least 13. -/
def claimC6 (now : Date) (df : List (ℕ × UserRow)) : Prop :=
  ∀ out, cleanUsers now df = some out →
    ∀ x ∈ out,
      (∀ d, x.2.BIRTH_DATE = some d → dateLe ⟨1925, 1, 1⟩ d = true) ∧
      (∃ n, x.2.AGE = some n ∧ 13 ≤ n)

/-- Claim C7 as stated: query 3 returns exactly one row, whose total is
the matching-row sale sum for the returned brand. -/
def claimC7 (rows : List MRow) : Prop :=
  (getLeadingDipsSalsaBrand rows).length = 1 ∧
  ∀ b s, (b, s) ∈ getLeadingDipsSalsaBrand rows → s = sumSalesFor rows b

/-! ## Concrete frames for counterexamples and witnesses -/

/-- A product row with a missing barcode and an informative category
(so no other cleaning rule touches it). -/
def exProdMissingBarcode : ProductRow :=
  { CATEGORY_1 := .str "Snacks", CATEGORY_2 := .null, CATEGORY_3 := .null,
    CATEGORY_4 := .null, MANUFACTURER := .null, BRAND := .str "BrandA",
    BARCODE := .null }

/-- One-row products frame whose single row has a missing barcode. -/
def exProductsC1 : List (ℕ × ProductRow) :=
  [(0, exProdMissingBarcode)]

/-- Base transaction row for the C2 counterexample. -/
def exTransBase : TransRow :=
  { RECEIPT_ID := .str "R1", PURCHASE_DATE := .str "2024-01-01",
    SCAN_DATE := .str "2024-01-02", STORE_NAME := .str "STORE",
    USER_ID := .str "U1", BARCODE := .str "100", FINAL_QUANTITY := .num 1,
    FINAL_SALE := .str "1.0" }

/-- Two raw transaction rows that differ only in the textual form of the
sale amount (`'1.0'` vs `'1.00'`); numeric coercion makes them exact
duplicates with a present sale. -/
def exTransC2 : List (ℕ × TransRow) :=
  [(0, exTransBase), (1, { exTransBase with FINAL_SALE := .str "1.00" })]

/-- First of two tied product rows sharing barcode `"123"`. -/
def exProdC5A : ProductRow :=
  { CATEGORY_1 := .str "Snacks", CATEGORY_2 := .null, CATEGORY_3 := .null,
    CATEGORY_4 := .null, MANUFACTURER := .null, BRAND := .str "A",
    BARCODE := .str "123" }

/-- Second of two tied product rows sharing barcode `"123"`. -/
def exProdC5B : ProductRow :=
  { exProdC5A with BRAND := .str "B" }

/-- Two product rows sharing barcode `"123"` with equal non-missing
counts (a completeness tie). -/
def exProductsC5 : List (ℕ × ProductRow) :=
  [(0, exProdC5A), (1, exProdC5B)]

/-- A fixed processing instant for concrete evaluations. -/
def exNow : Date :=
  ⟨2025, 3, 6⟩

/-- A raw user row whose birth date is written `5/5/1900`: it passes the
raw lexicographic `>= '1925-01-01'` filter yet parses to 1900-05-05. -/
def exUserOld : UserRow :=
  { ID := .str "u1", CREATED_DATE := .str "2024-01-01",
    BIRTH_DATE := .str "5/5/1900", STATE := .str "CA",
    LANGUAGE := .str "en", GENDER := .str "female" }

/-- One-row users frame for the C6 counterexample. -/
def exUsersC6 : List (ℕ × UserRow) :=
  [(0, exUserOld)]

/-- A cleaned user row for join witnesses. -/
def exCUser : CUserRow :=
  { ID := .str "U1", CREATED_DATE := some ⟨2023, 9, 6⟩,
    BIRTH_DATE := some ⟨1990, 1, 1⟩, STATE := .str "CA",
    LANGUAGE := .str "en", GENDER := .str "female",
    AGE := some 35, ACCOUNT_AGE_MONTHS := some 18 }

/-- A cleaned product row in the Dips & Salsa category. -/
def exProdDips : ProductRow :=
  { CATEGORY_1 := .str "Snacks", CATEGORY_2 := .str "Dips & Salsa",
    CATEGORY_3 := .null, CATEGORY_4 := .null, MANUFACTURER := .null,
    BRAND := .str "TOSTITOS", BARCODE := .str "100" }

/-- A coerced transaction row with a present sale, for query witnesses. -/
def exTransClean : TransRow :=
  { exTransBase with FINAL_SALE := .num 5, BARCODE := .str "100" }

/-- A merged frame with a single row matching the Dips & Salsa filter. -/
def exMergedC7 : List MRow :=
  mergedData [exTransClean] [exCUser] [exProdDips]

/-- The common coerced form of the two C2 rows: both textual sale
amounts parse to the number 1. -/
def exTransCoerced : TransRow :=
  { exTransBase with FINAL_SALE := .num 1 }

/-- A raw user row with an unparseable birth-date string that still
passes the raw lexicographic 1925 filter. -/
def exUserBadDate : UserRow :=
  { exUserOld with BIRTH_DATE := .str "not-a-date" }

/-- One-row users frame whose single row has an unparseable birth date. -/
def exUsersC3 : List (ℕ × UserRow) :=
  [(0, exUserBadDate)]

/-- A raw user row whose birth date `"1800-01-01"` fails the raw
lexicographic 1925 filter, so its frame cleans to an empty output
without the age computation ever seeing a date. -/
def exUserPre1925 : UserRow :=
  { exUserOld with BIRTH_DATE := .str "1800-01-01" }

/-- One-row users frame that completes cleaning with the row removed by
the explicit 1925 rule. -/
def exUsersC3Completed : List (ℕ × UserRow) :=
  [(0, exUserPre1925)]

/-- The cleaned form of `exUserOld` at processing instant `exNow`. -/
def exCUserOld : CUserRow :=
  { ID := .str "u1", CREATED_DATE := some ⟨2024, 1, 1⟩,
    BIRTH_DATE := some ⟨1900, 5, 5⟩, STATE := .str "CA",
    LANGUAGE := .str "en", GENDER := .str "female",
    AGE := some 124, ACCOUNT_AGE_MONTHS := some 14 }

/-! # Frame lemmas -/

theorem insIdx_perm (x : ℕ × α) (l : List (ℕ × α)) :
    List.Perm (insIdx x l) (x :: l) := by
  induction l with
  | nil => exact List.Perm.refl _
  | cons y l ih =>
    simp only [insIdx]
    split
    · exact (ih.cons y).trans (List.Perm.swap x y l)
    · exact List.Perm.refl _

theorem sortIndex_perm (l : List (ℕ × α)) : List.Perm (sortIndex l) l := by
  induction l with
  | nil => exact List.Perm.refl _
  | cons x l ih => exact (insIdx_perm x (sortIndex l)).trans (ih.cons x)

theorem insIdx_sorted {x : ℕ × α} {l : List (ℕ × α)} (hs : l.Pairwise idxLt)
    (hx : ∀ y ∈ l, y.1 ≠ x.1) : (insIdx x l).Pairwise idxLt := by
  induction l with
  | nil => simp [insIdx]
  | cons y l ih =>
    rw [List.pairwise_cons] at hs
    by_cases hlt : y.1 < x.1
    · simp only [insIdx, if_pos hlt]
      rw [List.pairwise_cons]
      refine ⟨?_, ih hs.2 (fun z hz => hx z (List.mem_cons_of_mem y hz))⟩
      intro z hz
      rcases List.mem_cons.mp ((insIdx_perm x l).mem_iff.mp hz) with rfl | h
      · exact hlt
      · exact hs.1 z h
    · simp only [insIdx, if_neg hlt]
      have hxy : idxLt x y :=
        lt_of_le_of_ne (not_lt.mp hlt) (Ne.symm (hx y (List.mem_cons_self y l)))
      rw [List.pairwise_cons]
      refine ⟨?_, List.pairwise_cons.mpr hs⟩
      intro z hz
      rcases List.mem_cons.mp hz with rfl | h
      · exact hxy
      · exact lt_trans hxy (hs.1 z h)

theorem sortIndex_sorted {l : List (ℕ × α)} (h : NodupIdx l) :
    (sortIndex l).Pairwise idxLt := by
  induction l with
  | nil => simp [sortIndex]
  | cons x l ih =>
    have h' := List.nodup_cons.mp h
    refine insIdx_sorted (ih h'.2) ?_
    intro y hy e
    exact h'.1 (e ▸ List.mem_map_of_mem Prod.fst ((sortIndex_perm l).subset hy))

theorem nodup_of_nodupIdx {l : List (ℕ × α)} (h : NodupIdx l) : l.Nodup :=
  List.Nodup.of_map Prod.fst h

theorem nodupIdx_of_wf {df : List (ℕ × α)} (h : WF df) : NodupIdx df :=
  List.pairwise_map.mpr (h.imp (fun hab => ne_of_lt hab))

theorem eq_of_idx {df : List (ℕ × α)} (h : NodupIdx df) {x y : ℕ × α}
    (hx : x ∈ df) (hy : y ∈ df) (he : x.1 = y.1) : x = y := by
  induction df with
  | nil => cases hx
  | cons z l ih =>
    have h' := List.nodup_cons.mp h
    rcases List.mem_cons.mp hx with rfl | hx' <;>
      rcases List.mem_cons.mp hy with rfl | hy'
    · rfl
    · exact absurd (he ▸ List.mem_map_of_mem Prod.fst hy') h'.1
    · exact absurd (he ▸ List.mem_map_of_mem Prod.fst hx') h'.1
    · exact ih h'.2 hx' hy'

theorem sortIndex_eq_filter [DecidableEq α] {df l : List (ℕ × α)}
    (hdf : WF df) (hl : NodupIdx l) (hsub : ∀ x ∈ l, x ∈ df) :
    sortIndex l = df.filter (fun x : ℕ × α => decide (x ∈ l)) := by
  have hnd : df.Nodup := nodup_of_nodupIdx (nodupIdx_of_wf hdf)
  have h2 : List.Perm l (df.filter (fun x : ℕ × α => decide (x ∈ l))) := by
    rw [List.perm_ext_iff_of_nodup (nodup_of_nodupIdx hl) (hnd.filter _)]
    intro a
    simp only [List.mem_filter, decide_eq_true_eq]
    exact ⟨fun ha => ⟨hsub a ha, ha⟩, fun ha => ha.2⟩
  exact List.eq_of_perm_of_sorted ((sortIndex_perm l).trans h2)
    (sortIndex_sorted hl) (hdf.filter _)

theorem dropDupsAux_sublist [DecidableEq α] (seen : List α) (l : List (ℕ × α)) :
    List.Sublist (dropDupsAux seen l) l := by
  induction l generalizing seen with
  | nil => exact List.Sublist.refl _
  | cons x xs ih =>
    simp only [dropDupsAux]
    split
    · exact (ih seen).cons x
    · exact (ih _).cons₂ x

theorem dropDups_sublist [DecidableEq α] (df : List (ℕ × α)) : List.Sublist (dropDups df) df :=
  dropDupsAux_sublist [] df

theorem dropDupKeyAux_sublist (key : α → Val) (seen : List Val)
    (l : List (ℕ × α)) : List.Sublist (dropDupKeyAux key seen l) l := by
  induction l generalizing seen with
  | nil => exact List.Sublist.refl _
  | cons x xs ih =>
    simp only [dropDupKeyAux]
    split
    · exact (ih seen).cons x
    · exact (ih _).cons₂ x

theorem nodupIdx_sublist {l m : List (ℕ × α)} (h : List.Sublist m l)
    (hn : NodupIdx l) : NodupIdx m :=
  List.Nodup.sublist (h.map Prod.fst) hn

theorem wf_sublist {l m : List (ℕ × α)} (h : List.Sublist m l) (hw : WF l) :
    WF m :=
  hw.sublist h

theorem nodupIdx_filter_append {df : List (ℕ × α)} (hdf : NodupIdx df)
    {p q : (ℕ × α) → Bool} (hpq : ∀ x, ¬(p x = true ∧ q x = true)) :
    NodupIdx (df.filter p ++ df.filter q) := by
  unfold NodupIdx
  rw [List.map_append, List.nodup_append]
  refine ⟨nodupIdx_sublist (List.filter_sublist _) hdf,
    nodupIdx_sublist (List.filter_sublist _) hdf, ?_⟩
  intro i hi1 hi2
  obtain ⟨x, hx, rfl⟩ := List.mem_map.mp hi1
  obtain ⟨y, hy, he⟩ := List.mem_map.mp hi2
  have hx' := List.mem_filter.mp hx
  have hy' := List.mem_filter.mp hy
  have hxy : x = y := eq_of_idx hdf hx'.1 hy'.1 he.symm
  exact hpq x ⟨hx'.2, hxy ▸ hy'.2⟩

/-! # Transaction-pipeline lemmas -/

theorem mapCoerce_fst {l m : List (ℕ × TransRow)} (h : mapCoerce l = some m) :
    m.map Prod.fst = l.map Prod.fst := by
  induction l generalizing m with
  | nil =>
    simp only [mapCoerce, Option.some.injEq] at h
    subst h; rfl
  | cons x xs ih =>
    simp only [mapCoerce] at h
    rcases hc : coerceTrans x.2 with _ | r <;> rw [hc] at h
    · cases h
    · rcases hm : mapCoerce xs with _ | rest <;> rw [hm] at h
      · cases h
      · have he := Option.some.inj h
        subst he
        simp [ih hm]

theorem mapCoerce_mem {l m : List (ℕ × TransRow)} (h : mapCoerce l = some m)
    {x : ℕ × TransRow} :
    x ∈ m ↔ ∃ r, (x.1, r) ∈ l ∧ coerceTrans r = some x.2 := by
  induction l generalizing m with
  | nil =>
    simp only [mapCoerce, Option.some.injEq] at h
    subst h; simp
  | cons z zs ih =>
    simp only [mapCoerce] at h
    rcases hc : coerceTrans z.2 with _ | r <;> rw [hc] at h
    · cases h
    · rcases hm : mapCoerce zs with _ | rest <;> rw [hm] at h
      · cases h
      · have he := Option.some.inj h
        subst he
        constructor
        · intro hx
          rcases List.mem_cons.mp hx with rfl | hx'
          · exact ⟨z.2, List.mem_cons_self z zs, hc⟩
          · obtain ⟨r', hr1, hr2⟩ := (ih hm).mp hx'
            exact ⟨r', List.mem_cons_of_mem z hr1, hr2⟩
        · rintro ⟨r', hr1, hr2⟩
          rcases List.mem_cons.mp hr1 with he' | hr1'
          · rcases he'.symm with rfl
            have h3 : r = x.2 := Option.some.inj (hc ▸ hr2)
            have h4 : (x.1, r) = x := by
              rw [h3]
            exact h4 ▸ List.mem_cons_self _ rest
          · exact List.mem_cons_of_mem _ ((ih hm).mpr ⟨r', hr1', hr2⟩)

theorem wf_mapCoerce {l m : List (ℕ × TransRow)} (h : mapCoerce l = some m)
    (hw : WF l) : WF m := by
  have h2 : (l.map Prod.fst).Pairwise (· < ·) := List.pairwise_map.mpr hw
  have h3 : (m.map Prod.fst).Pairwise (· < ·) := (mapCoerce_fst h) ▸ h2
  have h4 : m.Pairwise (fun a b : ℕ × TransRow => a.1 < b.1) :=
    (@List.pairwise_map (ℕ × TransRow) ℕ Prod.fst (· < ·) m).mp h3
  exact h4

theorem wf_ctIntermediate {df mid : List (ℕ × TransRow)}
    (h : ctIntermediate df = some mid) (hw : WF df) : WF mid :=
  wf_mapCoerce h (wf_sublist (dropDups_sublist df) hw)

theorem rdms_eq_filter {df : List (ℕ × TransRow)} (h : WF df) :
    removeDuplicateMissingSales df =
      df.filter (fun x =>
        !dupNoSale df x || (dupNoSale df x && x.2.FINAL_SALE != Val.null)) := by
  unfold removeDuplicateMissingSales
  have hnd : NodupIdx
      (df.filter (fun x => !dupNoSale df x) ++
        df.filter (fun x => dupNoSale df x && x.2.FINAL_SALE != Val.null)) := by
    refine nodupIdx_filter_append (nodupIdx_of_wf h) ?_
    rintro x ⟨h1, h2⟩
    simp only [Bool.and_eq_true] at h2
    rw [h2.1] at h1
    simp at h1
  have hsub : ∀ x ∈ df.filter (fun x => !dupNoSale df x) ++
      df.filter (fun x => dupNoSale df x && x.2.FINAL_SALE != Val.null),
      x ∈ df := by
    intro x hx
    rcases List.mem_append.mp hx with h' | h' <;>
      exact (List.mem_filter.mp h').1
  rw [sortIndex_eq_filter h hnd hsub]
  apply List.filter_congr
  intro x hx
  by_cases hd : dupNoSale df x <;>
    by_cases hp : x.2.FINAL_SALE != Val.null <;>
      simp [hd, hp, List.mem_append, List.mem_filter, hx]

theorem rdms_mem {df : List (ℕ × TransRow)} (h : WF df) {x : ℕ × TransRow} :
    x ∈ removeDuplicateMissingSales df ↔
      x ∈ df ∧ (dupNoSale df x = false ∨ x.2.FINAL_SALE ≠ Val.null) := by
  rw [rdms_eq_filter h, List.mem_filter]
  by_cases hd : dupNoSale df x <;> by_cases hp : x.2.FINAL_SALE = Val.null <;>
    simp [hd, hp]

theorem rdms_sublist {df : List (ℕ × TransRow)} (h : WF df) :
    List.Sublist (removeDuplicateMissingSales df) df := by
  rw [rdms_eq_filter h]
  exact List.filter_sublist _

/-! # User-pipeline lemmas -/

theorem cleanUsers_mem {now : Date} {df : List (ℕ × UserRow)}
    {out : List (ℕ × CUserRow)} (h : cleanUsers now df = some out)
    {x : ℕ × CUserRow} :
    x ∈ out ↔ ∃ r : UserRow, (x.1, r) ∈ dropDups df ∧
      strGeVal r.BIRTH_DATE "1925-01-01" = true ∧
      x.2 = processUser now r ∧ ageOk (processUser now r).AGE = true := by
  unfold cleanUsers at h
  split at h
  · split at h
    · split at h
      · have he := Option.some.inj h
        subst he
        constructor
        · intro hx
          have h1 := List.mem_filter.mp hx
          obtain ⟨y, hy, he2⟩ := List.mem_map.mp h1.1
          have h2 := List.mem_filter.mp hy
          rcases he2.symm with rfl
          refine ⟨y.2, ?_, h2.2, rfl, ?_⟩
          · exact Prod.mk.eta ▸ h2.1
          · exact h1.2
        · rintro ⟨r, hr1, hr2, hr3, hr4⟩
          apply List.mem_filter.mpr
          constructor
          · apply List.mem_map.mpr
            refine ⟨(x.1, r), List.mem_filter.mpr ⟨hr1, hr2⟩, ?_⟩
            rw [← hr3]
          · rw [hr3]
            exact hr4
      · cases h
    · cases h
  · cases h

/-! # Claim C1 -/

/-- C1: claimed — after `clean_products` every row has a non-missing
barcode and barcodes are unique.  The code contradicts its own comment
`Drop missing BARCODE rows`: `astype(str)` (line 202) turns NaN into the
string `"nan"` before `dropna` (line 227) runs, so the `dropna` is a
no-op and a row with a missing raw barcode survives with barcode
`"nan"` — missing by the script's own missing-barcode test (line 222).
This theorem evaluates the pipeline at such a row. -/
theorem c1_dropna_noop_keeps_nan_barcode :
    (cleanProducts exProductsC1).map (fun x => x.2.BARCODE) = [Val.str "nan"] ∧
    isMissingBarcode (Val.str "nan") = true :=
  ⟨by decide, rfl⟩

/-! # Claim C9 -/

/-- C9: gender normalization (lines 106 and 110) is idempotent, and
maps `"Prefer not to say"` to missing, `"Non-Binary"` to the canonical
`"non_binary"`, and leaves `"female"` unchanged. -/
theorem c9_gender_idempotent :
    (∀ v, normalizeGender (normalizeGender v) = normalizeGender v) ∧
    normalizeGender (Val.str "Prefer not to say") = Val.null ∧
    normalizeGender (Val.str "Non-Binary") = Val.str "non_binary" ∧
    normalizeGender (Val.str "female") = Val.str "female" := by
  refine ⟨?_, by decide, by decide, by decide⟩
  intro v
  by_cases h1 : v ∈ genderMissingTexts
  · have he : normalizeGender v = Val.null := by
      unfold normalizeGender replaceGenderMissing
      rw [if_pos h1]
      decide
    rw [he]
    decide
  · by_cases h2 : v ∈ genderNBTexts
    · have he : normalizeGender v = Val.str "non_binary" := by
        unfold normalizeGender replaceGenderMissing replaceGenderNB
        rw [if_neg h1, if_pos h2]
      rw [he]
      decide
    · have he : normalizeGender v = v := by
        unfold normalizeGender replaceGenderMissing replaceGenderNB
        rw [if_neg h1, if_neg h2]
      rw [he, he]

/-! # Claim C2 -/

/-- C2 fails as stated: numeric coercion can turn two rows that differ
only in the textual form of their sale amount (`'1.0'` vs `'1.00'`)
into exact duplicates, and `remove_duplicate_missing_sales` keeps both
because both sale amounts are present — the cleaned frame contains an
exact duplicate pair. -/
theorem c2_counterexample : ¬ claimC2 exTransC2 := by
  intro h
  have hout : cleanTransactions exTransC2 =
      some [(0, exTransCoerced), (1, exTransCoerced)] := by decide
  exact h.1 _ hout (0, exTransCoerced) (by decide) (1, exTransCoerced)
    (by decide) (by decide) rfl

/-- C2 amended: after `clean_transactions` any two distinct remaining
rows that are exactly equal both carry a present sale amount (exact
duplicates can only arise from distinct raw sale texts coercing to the
same present number); and in every group of reconciler-input rows that
agree on all columns but `FINAL_SALE`, present-sale rows are kept and a
dropped row always has a surviving present-sale counterpart. -/
theorem c2_amended {df : List (ℕ × TransRow)} (hwf : WF df) :
    (∀ out, cleanTransactions df = some out →
      ∀ x ∈ out, ∀ y ∈ out, x.1 ≠ y.1 → x.2 = y.2 →
        x.2.FINAL_SALE ≠ Val.null) ∧
    claimC2Reconciled df := by
  have key : ∀ mid, ctIntermediate df = some mid →
      ∀ x, x ∈ removeDuplicateMissingSales mid ↔
        x ∈ mid ∧ (dupNoSale mid x = false ∨ x.2.FINAL_SALE ≠ Val.null) := by
    intro mid hmid x
    exact rdms_mem (wf_ctIntermediate hmid hwf)
  constructor
  · intro out hout x hx y hy hne heq
    rcases hmid : ctIntermediate df with _ | mid
    · rw [cleanTransactions, hmid] at hout
      cases hout
    · rw [cleanTransactions, hmid] at hout
      have ho := Option.some.inj hout
      subst ho
      have hx' := (key mid hmid x).mp hx
      have hy' := (key mid hmid y).mp hy
      have hdup : dupNoSale mid x = true := by
        unfold dupNoSale
        apply List.any_eq_true.mpr
        refine ⟨y, hy'.1, ?_⟩
        rw [Bool.and_eq_true]
        constructor
        · exact bne_iff_ne.mpr (Ne.symm hne)
        · exact beq_iff_eq.mpr (congrArg subsetNoSale heq.symm)
      rcases hx'.2 with hf | hp
      · rw [hdup] at hf
        cases hf
      · exact hp
  · intro out hout mid hmid x hx
    rcases hmid' : ctIntermediate df with _ | mid'
    · rw [hmid'] at hmid
      cases hmid
    · rw [hmid'] at hmid
      have hm := Option.some.inj hmid
      subst hm
      rw [cleanTransactions, hmid'] at hout
      have ho := Option.some.inj hout
      subst ho
      constructor
      · intro hp
        exact (key _ hmid' x).mpr ⟨hx, Or.inr hp⟩
      · intro hnot
        constructor
        · by_cases hs : x.2.FINAL_SALE = Val.null
          · exact hs
          · exact absurd ((key _ hmid' x).mpr ⟨hx, Or.inr hs⟩) hnot
        · intro y hy _ _ hp
          exact (key _ hmid' y).mpr ⟨hy, Or.inr hp⟩

/-- C2 witness: the amended theorem applied to the concrete two-row
frame — the surviving exact-duplicate pair has a present sale amount. -/
theorem c2_witness : exTransCoerced.FINAL_SALE ≠ Val.null := by
  exact (c2_amended (by decide : WF exTransC2)).1
    [(0, exTransCoerced), (1, exTransCoerced)] (by decide)
    (0, exTransCoerced) (by decide) (1, exTransCoerced) (by decide)
    (by decide) rfl

/-! # Claim C8 -/

theorem fixQuantity276_shape (q : ℚ) :
    ∃ q', fixQuantity276 (Val.num q) = Val.num q' := by
  unfold fixQuantity276
  split
  · exact ⟨mkRat 276 100, rfl⟩
  · exact ⟨q, rfl⟩

theorem floatOfVal_shape {v u : Val} (h : floatOfVal v = some u) :
    u = Val.null ∨ ∃ q : ℚ, u = Val.num q := by
  rcases v with _ | s | q
  · exact Or.inl (Option.some.inj h).symm
  · simp only [floatOfVal] at h
    rcases hp : parseDec s with _ | q'' <;> rw [hp] at h
    · cases h
    · exact Or.inr ⟨q'', (Option.some.inj h).symm⟩
  · exact Or.inr ⟨q, (Option.some.inj h).symm⟩

theorem quantityClean_shape {v w : Val} (h : quantityClean v = some w) :
    w = Val.null ∨ ∃ q : ℚ, w = Val.num q := by
  unfold quantityClean at h
  rcases hf : floatOfVal (replaceZero v) with _ | u <;> rw [hf] at h
  · cases h
  · have hw : fixQuantity276 u = w := Option.some.inj h
    rcases floatOfVal_shape hf with rfl | ⟨q, rfl⟩
    · left
      rw [← hw]
      decide
    · right
      rw [← hw]
      exact fixQuantity276_shape q

theorem coerceTrans_quantity {r r' : TransRow} (h : coerceTrans r = some r') :
    quantityClean r.FINAL_QUANTITY = some r'.FINAL_QUANTITY := by
  unfold coerceTrans at h
  rcases hq : quantityClean r.FINAL_QUANTITY with _ | q <;> rw [hq] at h
  · cases h
  · rw [Option.map_some'] at h
    have he := Option.some.inj h
    rw [← he]

/-- C8: every cleaned transaction row's quantity is a float-column
value (a number or the float missing marker, never a string); the raw
token `"zero"` maps to `0`, the raw value `276` maps to `2.76`, and the
two substitutions (lines 152 and 156) fix every other value. -/
theorem c8_quantity :
    (∀ df out : List (ℕ × TransRow), WF df → cleanTransactions df = some out →
      ∀ x ∈ out, x.2.FINAL_QUANTITY = Val.null ∨
        ∃ q : ℚ, x.2.FINAL_QUANTITY = Val.num q) ∧
    quantityClean (Val.str "zero") = some (Val.num 0) ∧
    quantityClean (Val.num 276) = some (Val.num (mkRat 276 100)) ∧
    (∀ v, v ≠ Val.str "zero" → replaceZero v = v) ∧
    (∀ v, v ≠ Val.num 276 → fixQuantity276 v = v) := by
  refine ⟨?_, by decide, by decide, ?_, ?_⟩
  · intro df out hwf hout x hx
    rcases hmid : ctIntermediate df with _ | mid
    · rw [cleanTransactions, hmid] at hout
      cases hout
    · rw [cleanTransactions, hmid] at hout
      have ho := Option.some.inj hout
      subst ho
      have hxm : x ∈ mid := (rdms_mem (wf_ctIntermediate hmid hwf)).mp hx |>.1
      obtain ⟨r, _, hr2⟩ := (mapCoerce_mem hmid).mp hxm
      exact quantityClean_shape (coerceTrans_quantity hr2)
  · intro v hv
    unfold replaceZero
    rw [if_neg hv]
  · intro v hv
    unfold fixQuantity276
    rw [if_neg hv]

/-- C8 witness: the numeric-shape clause applied to the concrete
two-row frame. -/
theorem c8_witness :
    exTransCoerced.FINAL_QUANTITY = Val.null ∨
      ∃ q : ℚ, exTransCoerced.FINAL_QUANTITY = Val.num q := by
  exact c8_quantity.1 exTransC2 [(0, exTransCoerced), (1, exTransCoerced)]
    (by decide) (by decide) (0, exTransCoerced) (by decide)

/-! # Claim C3 -/

/-- C3 fails as stated for the users table: an unparseable birth date
does not merely coerce to NaT in a retained (or explicitly filtered)
row.  The raw string `"not-a-date"` passes the lexicographic 1925
filter (`'n' > '1'`), parses to NaT, and the line-124 age `apply` then
crashes the run inside dateutil's `relativedelta` (`months` is nan, so
`if self.months:` is taken and `assert 1 <= abs(self.months) <= 12`
fails).  The row is neither retained nor removed by an explicit rule —
the pipeline never completes. -/
theorem c3_counterexample : ¬ claimC3Users exNow exUsersC3 := by
  rintro ⟨out, hout, -⟩
  have hnone : cleanUsers exNow exUsersC3 = none := by decide
  rw [hnone] at hout
  cases hout

/-- C3 amended: an unparseable number field coerces to the missing
marker (`to_numeric(errors='coerce')`) in a retained row, and an
unparseable date field coerces to NaT; in the transaction pipeline a
coerced row is dropped only by the duplicate-missing-sale
reconciliation, and in a COMPLETED users run a deduplicated row is
dropped only by the raw 1925 birth-date filter or the age-below-13
filter.  But a NaT birth date on a row that passes the raw 1925 filter
aborts the whole run (dateutil `relativedelta` raises AssertionError on
nan months at the line-124 age `apply`), rather than being retained or
removed by a rule. -/
theorem c3_unparseable_coerced_and_explicit_rules :
    (∀ s : String, parseDec s = none → toNumericVal (Val.str s) = Val.null) ∧
    (∀ now : Date, ∀ r : UserRow,
      (∀ s, r.CREATED_DATE = Val.str s → toDatetimeStr s = none) →
      (processUser now r).CREATED_DATE = none) ∧
    (∀ df mid : List (ℕ × TransRow), WF df → ctIntermediate df = some mid →
      ∀ x ∈ mid, x ∉ removeDuplicateMissingSales mid →
        dupNoSale mid x = true ∧ x.2.FINAL_SALE = Val.null) ∧
    (∀ now : Date, ∀ df : List (ℕ × UserRow), ∀ out,
      cleanUsers now df = some out →
      ∀ x ∈ dropDups df, (∀ c : CUserRow, (x.1, c) ∉ out) →
        strGeVal x.2.BIRTH_DATE "1925-01-01" = false ∨
          ageOk (processUser now x.2).AGE = false) ∧
    (∀ now : Date, ∀ df : List (ℕ × UserRow), ∀ x ∈ dropDups df,
      strGeVal x.2.BIRTH_DATE "1925-01-01" = true →
      toDatetimeVal x.2.BIRTH_DATE = none →
      cleanUsers now df = none) := by
  refine ⟨?_, ?_, ?_, ?_, ?_⟩
  · intro s hp
    simp only [toNumericVal]
    rw [hp]
  · intro now r h
    show toDatetimeVal r.CREATED_DATE = none
    rcases hc : r.CREATED_DATE with _ | s | q
    · rfl
    · simp only [toDatetimeVal]
      exact h s hc
    · rfl
  · intro df mid hwf hmid x hx hnot
    rw [rdms_mem (wf_ctIntermediate hmid hwf)] at hnot
    by_cases hd : dupNoSale mid x
    · by_cases hs : x.2.FINAL_SALE = Val.null
      · exact ⟨hd, hs⟩
      · exact absurd ⟨hx, Or.inr hs⟩ hnot
    · exact absurd ⟨hx, Or.inl (by simpa using hd)⟩ hnot
  · intro now df out h x hx hnot
    by_cases h1 : strGeVal x.2.BIRTH_DATE "1925-01-01"
    · by_cases h2 : ageOk (processUser now x.2).AGE
      · exfalso
        apply hnot (processUser now x.2)
        apply (cleanUsers_mem h).mpr
        have hx' : ((x.1, processUser now x.2).1, x.2) ∈ dropDups df := by
          exact (show ((x.1 : ℕ), x.2) = x from Prod.mk.eta) ▸ hx
        exact ⟨x.2, hx', h1, rfl, h2⟩
      · right
        simpa using h2
    · left
      simpa using h1
  · intro now df x hx hge hparse
    unfold cleanUsers
    split
    · have h2 : ¬ ((dropDups df).filter
          (fun x => strGeVal x.2.BIRTH_DATE "1925-01-01")).all
          (fun x => (toDatetimeVal x.2.BIRTH_DATE).isSome) = true := by
        intro hall
        have hm := List.all_eq_true.mp hall x (List.mem_filter.mpr ⟨hx, hge⟩)
        rw [hparse] at hm
        cases hm
      rw [if_neg h2]
    · rfl

/-- C3 witness: the number-coercion clause at the unparseable text
`"abc"`; the completed-run removal clause at a one-row frame whose raw
birth date `"1800-01-01"` is explicitly filtered by the 1925 rule; and
the crash clause at a one-row frame whose birth date `"not-a-date"`
passes the raw filter but fails to parse, aborting the run. -/
theorem c3_witness :
    toNumericVal (Val.str "abc") = Val.null ∧
    (strGeVal exUserPre1925.BIRTH_DATE "1925-01-01" = false ∨
      ageOk (processUser exNow exUserPre1925).AGE = false) ∧
    cleanUsers exNow exUsersC3 = none := by
  refine ⟨?_, ?_, ?_⟩
  · exact c3_unparseable_coerced_and_explicit_rules.1 "abc" (by decide)
  · exact c3_unparseable_coerced_and_explicit_rules.2.2.2.1 exNow
      exUsersC3Completed [] (by decide) (0, exUserPre1925) (by decide)
      (by simp)
  · exact c3_unparseable_coerced_and_explicit_rules.2.2.2.2 exNow exUsersC3
      (0, exUserBadDate) (by decide) (by decide) (by decide)

/-! # Claim C4 -/

theorem filter_key_len_le_one {γ : Type} {rs : List γ} {rkey : γ → Val}
    (h : (rs.map rkey).Nodup) (p : γ → Bool) (v : Val)
    (hp : ∀ r, p r = true → rkey r = v) :
    (rs.filter p).length ≤ 1 := by
  induction rs with
  | nil => simp
  | cons r rs ih =>
    have h' := List.nodup_cons.mp h
    by_cases hr : p r
    · rw [List.filter_cons, if_pos hr]
      have hempty : rs.filter p = [] := by
        rw [List.filter_eq_nil_iff]
        intro a ha hpa
        apply h'.1
        have h1 : rkey a = v := hp a hpa
        have h2 : rkey r = v := hp r hr
        rw [h2, ← h1]
        exact List.mem_map_of_mem rkey ha
      simp [hempty]
    · rw [List.filter_cons, if_neg hr]
      exact ih h'.2

theorem leftJoin_length {γ δ : Type} (lkey : γ → Val) (rkey : δ → Val)
    (ts : List γ) (rs : List δ) (h : (rs.map rkey).Nodup) :
    (leftJoin lkey rkey ts rs).length = ts.length := by
  induction ts with
  | nil => rfl
  | cons t ts ih =>
    simp only [leftJoin, List.length_append, ih]
    split
    · simp only [List.length_cons, List.length_nil]
      omega
    case h_2 m ms heq =>
      have hle := filter_key_len_le_one h
        (fun r => rkey r == lkey t) (lkey t)
        (by intro r hr
            exact beq_iff_eq.mp hr)
      rw [heq] at hle
      simp only [List.length_map, List.length_cons] at hle ⊢
      omega

/-- C4: when the cleaned user identifiers and the cleaned product
barcodes are each unique keys, the two left joins of `merged_data`
neither drop nor duplicate any transaction row: the joined table has
exactly as many rows as the cleaned transaction table. -/
theorem c4_join_cardinality (ts : List TransRow) (us : List CUserRow)
    (ps : List ProductRow)
    (hU : (us.map (fun u => u.ID)).Nodup)
    (hP : (ps.map (fun p => p.BARCODE)).Nodup) :
    (mergedData ts us ps).length = ts.length := by
  unfold mergedData
  rw [leftJoin_length _ _ _ _ hP, leftJoin_length _ _ _ _ hU]

/-- C4 witness: the cardinality theorem at a concrete one-row join. -/
theorem c4_witness :
    (mergedData [exTransClean] [exCUser] [exProdDips]).length = 1 :=
  c4_join_cardinality [exTransClean] [exCUser] [exProdDips]
    (by decide) (by decide)

/-! # Claim C6 -/

/-- C6 fails as stated: the 1925 cutoff is applied to the RAW birth-date
string before parsing (line 102), so a non-ISO raw such as `"5/5/1900"`
passes the lexicographic comparison, parses to 1900-05-05, has age 124
(≥ 13), and survives into the cleaned frame with a birth date before
1925-01-01. -/
theorem c6_counterexample : ¬ claimC6 exNow exUsersC6 := by
  intro h
  have hout : cleanUsers exNow exUsersC6 = some [(0, exCUserOld)] := by decide
  have h2 := (h _ hout (0, exCUserOld) (by decide)).1 ⟨1900, 5, 5⟩ rfl
  exact absurd h2 (by decide)

/-- C6 amended: every cleaned user row comes from a raw row whose raw
birth-date string is lexicographically `>= '1925-01-01'` (the bound the
code actually enforces; the parsed-date bound only follows when the raw
string is in ISO form), and its computed age is at least 13. -/
theorem c6_amended {now : Date} {df : List (ℕ × UserRow)}
    {out : List (ℕ × CUserRow)} (h : cleanUsers now df = some out) :
    ∀ x ∈ out,
      (∃ r : UserRow, (x.1, r) ∈ df ∧
        strGeVal r.BIRTH_DATE "1925-01-01" = true ∧
        x.2.BIRTH_DATE = toDatetimeVal r.BIRTH_DATE) ∧
      ∃ n, x.2.AGE = some n ∧ 13 ≤ n := by
  intro x hx
  obtain ⟨r, hr1, hr2, hr3, hr4⟩ := (cleanUsers_mem h).mp hx
  constructor
  · refine ⟨r, (dropDups_sublist df).subset hr1, hr2, ?_⟩
    rw [hr3]
    rfl
  · rw [hr3]
    unfold ageOk at hr4
    rcases he : (processUser now r).AGE with _ | n <;> rw [he] at hr4
    · cases hr4
    · exact ⟨n, rfl, of_decide_eq_true hr4⟩

/-- C6 witness: the amended theorem at the concrete one-row frame. -/
theorem c6_witness :
    (∃ r : UserRow, ((0 : ℕ), r) ∈ exUsersC6 ∧
      strGeVal r.BIRTH_DATE "1925-01-01" = true ∧
      exCUserOld.BIRTH_DATE = toDatetimeVal r.BIRTH_DATE) ∧
    ∃ n, exCUserOld.AGE = some n ∧ 13 ≤ n :=
  c6_amended (by decide : cleanUsers exNow exUsersC6 = some [(0, exCUserOld)])
    (0, exCUserOld) (by decide)

/-! # Claim C7 -/

theorem foldl_pick_mem (g : Val × ℚ) (gs : List (Val × ℚ)) :
    gs.foldl (fun best x => if best.2 < x.2 then x else best) g ∈ g :: gs := by
  induction gs generalizing g with
  | nil => exact List.mem_singleton.mpr rfl
  | cons a gs ih =>
    simp only [List.foldl_cons]
    by_cases hc : g.2 < a.2
    · rw [if_pos hc]
      rcases List.mem_cons.mp (ih a) with h | h
      · rw [h]
        exact List.mem_cons_of_mem _ (List.mem_cons_self _ _)
      · exact List.mem_cons_of_mem _ (List.mem_cons_of_mem _ h)
    · rw [if_neg hc]
      rcases List.mem_cons.mp (ih g) with h | h
      · rw [h]
        exact List.mem_cons_self _ _
      · exact List.mem_cons_of_mem _ (List.mem_cons_of_mem _ h)

theorem q3Groups_sum {rows : List MRow} {b : Val} {s : ℚ}
    (h : (b, s) ∈ q3Groups rows) : s = sumSalesFor rows b := by
  obtain ⟨b', hb', he⟩ := List.mem_map.mp h
  have h1 : b' = b := congrArg Prod.fst he
  have h2 : sumSalesFor rows b' = s := congrArg Prod.snd he
  rw [← h2, h1]

theorem q3Brands_ne_nil {rows : List MRow} (h : rows.filter q3Filter ≠ []) :
    q3Brands rows ≠ [] := by
  unfold q3Brands
  rcases he : (rows.filter q3Filter).map mBrand with _ | ⟨v, vs⟩
  · exact absurd (List.map_eq_nil_iff.mp he) h
  · simp [dedupValsAux]

/-- C7 fails as stated: on a joined table with no row matching the
Dips & Salsa filter (for instance the join of three empty cleaned
tables) the query returns zero rows, not exactly one. -/
theorem c7_counterexample : ¬ claimC7 (mergedData [] [] []) := by
  intro h
  exact absurd h.1 (by decide)

/-- C7 amended: query 3 returns at most one row; when at least one row
of the joined table matches the filter (category-2 or category-3 equal
to `"Dips & Salsa"`, brand present, sale present) it returns exactly
one row, whose total equals the sum of sale amounts over the matching
rows of the returned brand. -/
theorem c7_amended (rows : List MRow) (h : rows.filter q3Filter ≠ []) :
    (getLeadingDipsSalsaBrand rows).length = 1 ∧
    ∀ b s, (b, s) ∈ getLeadingDipsSalsaBrand rows →
      s = sumSalesFor rows b := by
  have hb : q3Brands rows ≠ [] := q3Brands_ne_nil h
  unfold getLeadingDipsSalsaBrand
  rcases hg : q3Groups rows with _ | ⟨g, gs⟩
  · exfalso
    apply hb
    unfold q3Groups at hg
    exact List.map_eq_nil_iff.mp hg
  · constructor
    · rfl
    · intro b s hbs
      have h1 := List.mem_singleton.mp hbs
      have h2 : (b, s) ∈ g :: gs := by
        rw [h1]
        exact foldl_pick_mem g gs
      apply q3Groups_sum
      rw [hg]
      exact h2

/-- C7 witness: the amended theorem at a one-row joined table with one
matching Dips & Salsa row. -/
theorem c7_witness :
    (getLeadingDipsSalsaBrand exMergedC7).length = 1 ∧
    ∀ b s, (b, s) ∈ getLeadingDipsSalsaBrand exMergedC7 →
      s = sumSalesFor exMergedC7 b :=
  c7_amended exMergedC7 (by decide)

/-! # Product-deduplication lemmas -/

theorem insertByCount_perm (x : ℕ × ProductRow) (l : List (ℕ × ProductRow)) :
    List.Perm (insertByCount x l) (x :: l) := by
  induction l with
  | nil => exact List.Perm.refl _
  | cons y l ih =>
    simp only [insertByCount]
    split
    · exact (ih.cons y).trans (List.Perm.swap x y l)
    · exact List.Perm.refl _

theorem sortByCountAsc_perm (l : List (ℕ × ProductRow)) :
    List.Perm (sortByCountAsc l) l := by
  induction l with
  | nil => exact List.Perm.refl _
  | cons x l ih =>
    exact (insertByCount_perm x (sortByCountAsc l)).trans (ih.cons x)

theorem insertByCount_sorted {x : ℕ × ProductRow}
    {l : List (ℕ × ProductRow)} (hs : l.Pairwise lexLtP)
    (hx : ∀ y ∈ l, y.1 < x.1) : (insertByCount x l).Pairwise lexLtP := by
  induction l with
  | nil => simp [insertByCount]
  | cons y l ih =>
    rw [List.pairwise_cons] at hs
    by_cases hc : notnaCount y.2 < notnaCount x.2
    · simp only [insertByCount, if_pos hc]
      rw [List.pairwise_cons]
      refine ⟨?_, ih hs.2 (fun z hz => hx z (List.mem_cons_of_mem y hz))⟩
      intro z hz
      rcases List.mem_cons.mp ((insertByCount_perm x l).mem_iff.mp hz)
        with rfl | h
      · exact Or.inl hc
      · exact hs.1 z h
    · simp only [insertByCount, if_neg hc]
      have hle : notnaCount x.2 ≤ notnaCount y.2 := Nat.not_lt.mp hc
      rw [List.pairwise_cons]
      refine ⟨?_, List.pairwise_cons.mpr hs⟩
      intro z hz
      rcases List.mem_cons.mp hz with rfl | h
      · rcases Nat.lt_or_ge (notnaCount x.2) (notnaCount z.2) with h1 | h1
        · exact Or.inl h1
        · exact Or.inr ⟨Nat.le_antisymm hle h1,
            hx z (List.mem_cons_self _ _)⟩
      · rcases hs.1 z h with h2 | ⟨h2, _⟩
        · exact Or.inl (Nat.lt_of_le_of_lt hle h2)
        · rcases Nat.lt_or_ge (notnaCount x.2) (notnaCount z.2) with h3 | h3
          · exact Or.inl h3
          · exact Or.inr ⟨Nat.le_antisymm (h2 ▸ hle) h3,
              hx z (List.mem_cons_of_mem y h)⟩

theorem sortByCountAsc_sorted {l : List (ℕ × ProductRow)}
    (h : l.Pairwise (fun a b : ℕ × ProductRow => b.1 < a.1)) :
    (sortByCountAsc l).Pairwise lexLtP := by
  induction l with
  | nil => simp [sortByCountAsc]
  | cons x l ih =>
    rw [List.pairwise_cons] at h
    apply insertByCount_sorted (ih h.2)
    intro y hy
    exact h.1 y ((sortByCountAsc_perm l).subset hy)

theorem sortedDupOf_pairwise {df : List (ℕ × ProductRow)} (hwf : WF df) :
    (sortedDupOf df).Pairwise (fun a b => lexLtP b a) := by
  unfold sortedDupOf
  rw [List.pairwise_reverse]
  apply sortByCountAsc_sorted
  rw [List.pairwise_reverse]
  exact wf_sublist (List.filter_sublist _) hwf

theorem sortedDupOf_perm (df : List (ℕ × ProductRow)) :
    List.Perm (sortedDupOf df) (dupRowsOf df) :=
  (List.reverse_perm _).trans
    ((sortByCountAsc_perm _).trans (List.reverse_perm _))

theorem dropDupKeyAux_mem {key : α → Val} {seen : List Val}
    {l : List (ℕ × α)} {x : ℕ × α} :
    x ∈ dropDupKeyAux key seen l ↔
      key x.2 ∉ seen ∧ l.find? (fun y => key y.2 == key x.2) = some x := by
  induction l generalizing seen with
  | nil => simp [dropDupKeyAux]
  | cons z zs ih =>
    simp only [dropDupKeyAux]
    by_cases hz : key z.2 ∈ seen
    · rw [if_pos hz, ih]
      constructor
      · rintro ⟨h1, h2⟩
        refine ⟨h1, ?_⟩
        have hp : ¬((fun y : ℕ × α => key y.2 == key x.2) z = true) := by
          simp only [beq_iff_eq]
          intro he
          exact h1 (he ▸ hz)
        rw [@List.find?_cons_of_neg _ (fun y => key y.2 == key x.2) z zs hp]
        exact h2
      · rintro ⟨h1, h2⟩
        refine ⟨h1, ?_⟩
        by_cases hp : ((fun y : ℕ × α => key y.2 == key x.2) z = true)
        · rw [@List.find?_cons_of_pos _ (fun y => key y.2 == key x.2) z zs hp]
            at h2
          exfalso
          apply h1
          have he : key z.2 = key x.2 := by
            simpa only [beq_iff_eq] using hp
          exact he ▸ hz
        · rw [@List.find?_cons_of_neg _ (fun y => key y.2 == key x.2) z zs hp]
            at h2
          exact h2
    · rw [if_neg hz]
      constructor
      · intro hmem
        rcases List.mem_cons.mp hmem with rfl | hmem'
        · refine ⟨hz, ?_⟩
          rw [@List.find?_cons_of_pos _ (fun y => key y.2 == key x.2) x zs
            (beq_self_eq_true _)]
        · obtain ⟨h1, h2⟩ := ih.mp hmem'
          have hne : key x.2 ≠ key z.2 := by
            intro he
            exact h1 (by rw [he]; exact List.mem_cons_self _ _)
          have hp : ¬((fun y : ℕ × α => key y.2 == key x.2) z = true) := by
            simp only [beq_iff_eq]
            exact fun he => hne he.symm
          refine ⟨fun hmem2 => h1 (List.mem_cons_of_mem _ hmem2), ?_⟩
          rw [@List.find?_cons_of_neg _ (fun y => key y.2 == key x.2) z zs hp]
          exact h2
      · rintro ⟨h1, h2⟩
        by_cases hp : ((fun y : ℕ × α => key y.2 == key x.2) z = true)
        · rw [@List.find?_cons_of_pos _ (fun y => key y.2 == key x.2) z zs hp]
            at h2
          have hzx := Option.some.inj h2
          rw [← hzx]
          exact List.mem_cons_self _ _
        · rw [@List.find?_cons_of_neg _ (fun y => key y.2 == key x.2) z zs hp]
            at h2
          apply List.mem_cons_of_mem
          apply ih.mpr
          refine ⟨?_, h2⟩
          intro hmem
          rcases List.mem_cons.mp hmem with he | hmem'
          · exact hp (by simpa only [beq_iff_eq] using he.symm)
          · exact h1 hmem'

theorem find?_pairwise_rel {γ : Type} {R : γ → γ → Prop} {l : List γ}
    (hp : l.Pairwise R) {p : γ → Bool} {x : γ} (hf : l.find? p = some x) :
    ∀ y ∈ l, p y = true → y = x ∨ R x y := by
  induction l with
  | nil => intro y hy; cases hy
  | cons z l ih =>
    have hp' := List.pairwise_cons.mp hp
    intro y hy hpy
    by_cases hz : p z = true
    · rw [List.find?_cons_of_pos _ hz] at hf
      have hzx := Option.some.inj hf
      rcases List.mem_cons.mp hy with rfl | hy'
      · exact Or.inl hzx
      · exact Or.inr (hzx ▸ hp'.1 y hy')
    · rw [List.find?_cons_of_neg _ hz] at hf
      rcases List.mem_cons.mp hy with rfl | hy'
      · exact absurd hpy hz
      · exact ih hp'.2 hf y hy' hpy

theorem filter_eq_singleton_of_unique {γ : Type} {l : List γ} (hnd : l.Nodup)
    {p : γ → Bool} {x : γ} (hx : x ∈ l) (hpx : p x = true)
    (huniq : ∀ y ∈ l, p y = true → y = x) : l.filter p = [x] := by
  induction l with
  | nil => cases hx
  | cons z l ih =>
    have hnd' := List.nodup_cons.mp hnd
    rcases List.mem_cons.mp hx with rfl | hx'
    · rw [List.filter_cons, if_pos hpx]
      have hnil : l.filter p = [] := by
        rw [List.filter_eq_nil_iff]
        intro a ha hpa
        exact hnd'.1 ((huniq a (List.mem_cons_of_mem _ ha) hpa) ▸ ha)
      rw [hnil]
    · have hpz : ¬(p z = true) := by
        intro hc
        exact hnd'.1 ((huniq z (List.mem_cons_self _ _) hc) ▸ hx')
      rw [List.filter_cons, if_neg hpz]
      exact ih hnd'.2 hx' (fun y hy => huniq y (List.mem_cons_of_mem _ hy))

theorem dupRowsOf_all_false {df : List (ℕ × ProductRow)}
    (hD : (dupRowsOf df).isEmpty = true) :
    ∀ y ∈ df, dupBarcode df y = false := by
  intro y hy
  have hnil : dupRowsOf df = [] := List.isEmpty_iff.mp hD
  have := List.filter_eq_nil_iff.mp hnil y hy
  simpa using this

theorem mcOf_subset_dupRows {df : List (ℕ × ProductRow)} :
    ∀ y ∈ mcOf df, y ∈ dupRowsOf df := by
  intro y hy
  exact (sortedDupOf_perm df).subset
    ((dropDupKeyAux_sublist _ _ _).subset hy)

theorem nodupIdx_mcOf {df : List (ℕ × ProductRow)} (hwf : WF df) :
    NodupIdx (mcOf df) := by
  apply nodupIdx_sublist (dropDupKeyAux_sublist _ _ _)
  have h1 : NodupIdx (dupRowsOf df) :=
    nodupIdx_sublist (List.filter_sublist _) (nodupIdx_of_wf hwf)
  unfold NodupIdx at h1 ⊢
  exact (((sortedDupOf_perm df).map Prod.fst).nodup_iff).mpr h1

theorem kmc_eq_filter {df : List (ℕ × ProductRow)} (hwf : WF df)
    (hD : (dupRowsOf df).isEmpty = false) :
    keepMostCompleteDuplicates df =
      df.filter (fun x : ℕ × ProductRow =>
        decide (x ∈ df.filter (fun z => !dupBarcode df z) ++ mcOf df)) := by
  unfold keepMostCompleteDuplicates
  rw [if_neg (by simp [hD])]
  refine sortIndex_eq_filter hwf ?_ ?_
  · unfold NodupIdx
    rw [List.map_append, List.nodup_append]
    refine ⟨nodupIdx_sublist (List.filter_sublist _) (nodupIdx_of_wf hwf),
      nodupIdx_mcOf hwf, ?_⟩
    intro i hi1 hi2
    obtain ⟨y1, hy1, rfl⟩ := List.mem_map.mp hi1
    obtain ⟨y2, hy2, he⟩ := List.mem_map.mp hi2
    have hy1' := List.mem_filter.mp hy1
    have hy2' := List.mem_filter.mp (mcOf_subset_dupRows y2 hy2)
    have hee : y1 = y2 := eq_of_idx (nodupIdx_of_wf hwf) hy1'.1 hy2'.1 he.symm
    have hcontra := hy1'.2
    rw [hee, hy2'.2] at hcontra
    cases hcontra
  · intro y hy
    rcases List.mem_append.mp hy with h | h
    · exact (List.mem_filter.mp h).1
    · exact (List.mem_filter.mp (mcOf_subset_dupRows y h)).1

theorem kmc_mem {df : List (ℕ × ProductRow)} (hwf : WF df)
    {x : ℕ × ProductRow} :
    x ∈ keepMostCompleteDuplicates df ↔
      x ∈ df ∧ (dupBarcode df x = false ∨ x ∈ mcOf df) := by
  rcases hD : (dupRowsOf df).isEmpty with _ | _
  · rw [kmc_eq_filter hwf hD, List.mem_filter]
    simp only [decide_eq_true_eq, List.mem_append, List.mem_filter]
    constructor
    · rintro ⟨h1, h2⟩
      refine ⟨h1, ?_⟩
      rcases h2 with ⟨_, h3⟩ | h3
      · exact Or.inl (by simpa using h3)
      · exact Or.inr h3
    · rintro ⟨h1, h2⟩
      refine ⟨h1, ?_⟩
      rcases h2 with h3 | h3
      · exact Or.inl ⟨h1, by simp [h3]⟩
      · exact Or.inr h3
  · unfold keepMostCompleteDuplicates
    rw [if_pos hD]
    constructor
    · intro hx
      exact ⟨hx, Or.inl (dupRowsOf_all_false hD x hx)⟩
    · exact fun h => h.1

theorem kmc_sublist {df : List (ℕ × ProductRow)} (hwf : WF df) :
    List.Sublist (keepMostCompleteDuplicates df) df := by
  rcases hD : (dupRowsOf df).isEmpty with _ | _
  · rw [kmc_eq_filter hwf hD]
    exact List.filter_sublist _
  · unfold keepMostCompleteDuplicates
    rw [if_pos hD]

/-! # Claim C10 -/

/-- C10: both `remove_duplicate_missing_sales` and
`keep_most_complete_duplicates` return a subsequence of their input
frame (they reassemble the retained rows with `sort_index` on the
preserved original index labels), so retained rows keep their original
relative order. -/
theorem c10_order_preserved :
    (∀ df : List (ℕ × TransRow), WF df →
      List.Sublist (removeDuplicateMissingSales df) df) ∧
    (∀ df : List (ℕ × ProductRow), WF df →
      List.Sublist (keepMostCompleteDuplicates df) df) :=
  ⟨fun _ h => rdms_sublist h, fun _ h => kmc_sublist h⟩

/-- C10 witness: both clauses applied to concrete two-row frames. -/
theorem c10_witness :
    List.Sublist
      (removeDuplicateMissingSales [(0, exTransCoerced), (1, exTransCoerced)])
      [(0, exTransCoerced), (1, exTransCoerced)] ∧
    List.Sublist (keepMostCompleteDuplicates exProductsC5) exProductsC5 :=
  ⟨c10_order_preserved.1 _ (by decide), c10_order_preserved.2 _ (by decide)⟩

/-! # Claim C5 -/

/-- C5: for every nonempty barcode group of the deduplicator's input,
exactly one row survives `keep_most_complete_duplicates` — a row with
the maximum number of non-missing fields, and when several rows attain
that maximum, the one occurring FIRST in original row order.  pandas's
`sort_values(ascending=False)` (nargsort) reverses the input before
the stable ascending argsort and reverses the resulting indexer after,
so completeness ties come out in ORIGINAL order and
`drop_duplicates(keep='first')` keeps the first original occurrence. -/
theorem c5_keeps_most_complete_first {df : List (ℕ × ProductRow)}
    (hwf : WF df) : claimC5 df := by
  intro b hb
  obtain ⟨z, hz, hzb⟩ := hb
  have hdfnd : df.Nodup := nodup_of_nodupIdx (nodupIdx_of_wf hwf)
  have hout_nd : (keepMostCompleteDuplicates df).Nodup :=
    List.Nodup.sublist (kmc_sublist hwf) hdfnd
  by_cases hdup : dupBarcode df z = true
  case neg =>
    have hflag : dupBarcode df z = false := by simpa using hdup
    have huniq : ∀ y ∈ df, y.2.BARCODE = b → y = z := by
      intro y hy hyb
      by_contra hne
      have hne1 : y.1 ≠ z.1 := by
        intro he
        exact hne (eq_of_idx (nodupIdx_of_wf hwf) hy hz he)
      have hc : dupBarcode df z = true := by
        unfold dupBarcode
        apply List.any_eq_true.mpr
        refine ⟨y, hy, ?_⟩
        rw [Bool.and_eq_true]
        exact ⟨bne_iff_ne.mpr hne1, beq_iff_eq.mpr (hyb.trans hzb.symm)⟩
      rw [hflag] at hc
      cases hc
    have hzout : z ∈ keepMostCompleteDuplicates df :=
      (kmc_mem hwf).mpr ⟨hz, Or.inl hflag⟩
    refine ⟨z, ?_, hz, hzb, ?_⟩
    · exact @filter_eq_singleton_of_unique _ _ hout_nd
        (fun w : ℕ × ProductRow => w.2.BARCODE == b) z hzout
        (beq_iff_eq.mpr hzb)
        (fun y hy hyb => huniq y ((kmc_mem hwf).mp hy).1 (beq_iff_eq.mp hyb))
    · intro y hy hyb
      rw [huniq y hy hyb]
      exact Or.inr ⟨rfl, le_refl _⟩
  case pos =>
    have hgroup : ∀ y ∈ df, y.2.BARCODE = b → y ∈ dupRowsOf df := by
      intro y hy hyb
      apply List.mem_filter.mpr
      refine ⟨hy, ?_⟩
      by_cases hyz : y = z
      · rw [hyz]
        exact hdup
      · unfold dupBarcode
        apply List.any_eq_true.mpr
        refine ⟨z, hz, ?_⟩
        rw [Bool.and_eq_true]
        have hne1 : z.1 ≠ y.1 := by
          intro he
          exact hyz (eq_of_idx (nodupIdx_of_wf hwf) hz hy he).symm
        exact ⟨bne_iff_ne.mpr hne1, beq_iff_eq.mpr (hzb.trans hyb.symm)⟩
    have hzs : z ∈ sortedDupOf df :=
      (sortedDupOf_perm df).symm.subset (hgroup z hz hzb)
    have hsome :
        ((sortedDupOf df).find? (fun y => y.2.BARCODE == b)).isSome = true := by
      rw [List.find?_isSome]
      exact ⟨z, hzs, beq_iff_eq.mpr hzb⟩
    obtain ⟨x, hfind⟩ := Option.isSome_iff_exists.mp hsome
    have hxb : x.2.BARCODE = b := by
      have hpx := List.find?_some hfind
      simpa using hpx
    have hxs : x ∈ sortedDupOf df := List.mem_of_find?_eq_some hfind
    have hxdf : x ∈ df := (List.mem_filter.mp ((sortedDupOf_perm df).subset hxs)).1
    have hxmc : x ∈ mcOf df := by
      apply dropDupKeyAux_mem.mpr
      constructor
      · exact List.not_mem_nil _
      · show (sortedDupOf df).find? (fun y => y.2.BARCODE == x.2.BARCODE) = some x
        rw [hxb]
        exact hfind
    have hxout : x ∈ keepMostCompleteDuplicates df :=
      (kmc_mem hwf).mpr ⟨hxdf, Or.inr hxmc⟩
    have huniqout : ∀ y ∈ keepMostCompleteDuplicates df,
        (fun w : ℕ × ProductRow => w.2.BARCODE == b) y = true → y = x := by
      intro y hy hyb'
      have hyb : y.2.BARCODE = b := beq_iff_eq.mp hyb'
      obtain ⟨hydf, hcase⟩ := (kmc_mem hwf).mp hy
      rcases hcase with hflag | hymc
      · exfalso
        have hc := (List.mem_filter.mp (hgroup y hydf hyb)).2
        rw [hflag] at hc
        cases hc
      · obtain ⟨_, hyfind⟩ := dropDupKeyAux_mem.mp hymc
        have hyfind' : (sortedDupOf df).find?
            (fun w => w.2.BARCODE == y.2.BARCODE) = some y := hyfind
        rw [hyb] at hyfind'
        exact Option.some.inj (hyfind'.symm.trans hfind)
    refine ⟨x, @filter_eq_singleton_of_unique _ _ hout_nd
      (fun w : ℕ × ProductRow => w.2.BARCODE == b) x hxout
      (beq_iff_eq.mpr hxb) huniqout, hxdf, hxb, ?_⟩
    intro y hy hyb
    have hys : y ∈ sortedDupOf df :=
      (sortedDupOf_perm df).symm.subset (hgroup y hy hyb)
    have hrel := find?_pairwise_rel (sortedDupOf_pairwise hwf) hfind y hys
      (beq_iff_eq.mpr hyb)
    rcases hrel with rfl | hrel
    · exact Or.inr ⟨rfl, le_refl _⟩
    · rcases hrel with h1 | ⟨h1, h2⟩
      · exact Or.inl h1
      · exact Or.inr ⟨h1, Nat.le_of_lt h2⟩

/-- C5 witness: the theorem at the concrete two-row frame with a
completeness tie on barcode "123". -/
theorem c5_witness : claimC5 exProductsC5 :=
  c5_keeps_most_complete_first (by decide)

end Fetch


